import Mathlib

/-!
Verification of the chengyu-bot dataset pipeline and query/quiz engine
(src/bot_chengyus.py), as a shallow embedding in Lean.

A pandas DataFrame is modelled as a `Table`: an ordered list of column
names plus an ordered list of rows, each row an ordered list of cells
aligned positionally with the columns.  A missing value (pandas NaN) is
`none`; a present string value is `some s`.
-/

namespace ChengyuBot

/-- A cell of the table: `none` models pandas NaN. -/
abbrev Cell := Option String

/-- A row of the raw table, aligned positionally with the column list. -/
abbrev Row := List Cell

/-- A pandas DataFrame: ordered column names plus rows of cells. -/
structure Table where
  cols : List String
  rows : List Row
  deriving DecidableEq, Repr

/-- Models `DataFrame.empty`: true when the frame has no rows or no columns. -/
def Table.isEmpty (t : Table) : Bool := t.rows.isEmpty || t.cols.isEmpty

/-- The alias table of `process_loaded_data` (`column_mapping`, lines 165-186),
in Python dict insertion order: raw spelling to canonical column name. -/
def column_mapping : List (String × String) :=
  [("chengyu", "Chengyu 成语"),
   ("CHENGYU", "Chengyu 成语"),
   ("Chengyu", "Chengyu 成语"),
   ("pinyin", "Pinyin"),
   ("PINYIN", "Pinyin"),
   ("equivalente", "Equivalente en Venezolano"),
   ("refran", "Equivalente en Venezolano"),
   ("refrán", "Equivalente en Venezolano"),
   ("venezolano", "Equivalente en Venezolano"),
   ("categoria", "Categoria"),
   ("categoría", "Categoria"),
   ("category", "Categoria"),
   ("tema", "Categoria")]

/-- Models `df.rename(columns={old: new})`: every column named `old`
becomes `new`; rows are positional, hence unchanged. -/
def renameCol (old new : String) (cols : List String) : List String :=
  cols.map (fun c => if c = old then new else c)

/-- One iteration of the alias loop (lines 189-191): rename `p.1` to `p.2`
only when `p.1` is a column and the canonical `p.2` is not. -/
def applyAlias (cols : List String) (p : String × String) : List String :=
  if p.1 ∈ cols ∧ p.2 ∉ cols then renameCol p.1 p.2 cols else cols

/-- The whole alias loop of `process_loaded_data`, folding over the
mapping in dict order. -/
def normalizeCols (cols : List String) : List String :=
  column_mapping.foldl applyAlias cols

/-- A row is entirely empty when every cell is NaN (`dropna(how='all')`). -/
def rowEmpty (r : Row) : Bool := r.all (fun c => c = none)

/-- Models `self.df.dropna(how='all')` on the rows. -/
def dropEmptyRows (rows : List Row) : List Row :=
  rows.filter (fun r => !rowEmpty r)

/-- Models `process_loaded_data` (lines 158-208) restricted to its effect on
the table itself: drop fully-empty rows, then apply the alias loop to the
column names (the category extraction writes `self.categorias`, modelled
separately by `extract_categorias`). -/
def process_loaded_data (t : Table) : Table :=
  { cols := normalizeCols t.cols, rows := dropEmptyRows t.rows }

/-- The column-name candidates used when extracting categories (line 197). -/
def categoria_cols : List String := ["Categoria", "Category", "Categoría", "Tema"]

/-- Distinct values in first-occurrence order, as pandas `Series.unique()`. -/
def uniqueFirst (l : List String) : List String :=
  l.foldl (fun acc x => if x ∈ acc then acc else acc ++ [x]) []

/-- The cells of the column named `c`, in row order (`self.df[c]`);
`none` when the column is absent from the table. -/
def Table.column? (t : Table) (c : String) : Option (List Cell) :=
  if c ∈ t.cols then some (t.rows.map (fun r => (r.get? (t.cols.indexOf c)).join))
  else none

/-- Models the category-extraction tail of `process_loaded_data`
(lines 196-205): the first candidate column name present wins; its distinct
non-NaN values become the category list, defaulting to `General` when no
candidate column exists or the list comes out empty. -/
def extract_categorias (t : Table) : List String :=
  let cats :=
    match categoria_cols.find? (fun c => t.cols.contains c) with
    | some c =>
        match t.column? c with
        | some cells => uniqueFirst (cells.filterMap id)
        | none => []
    | none => []
  if cats = [] then ["General"] else cats

/-! ## Source Resolver acceptance checks -/

/-- The term-column spellings accepted by `load_specific_csv` (line 79). -/
def chengyu_cols : List String := ["Chengyu 成语", "Chengyu", "chengyu", "CHENGYU"]

/-- The per-parse validation of `load_specific_csv` (lines 68-93): the parsed
frame must be non-empty, have at least 10 rows, and one of the term-column
spellings must appear among the raw columns. -/
def specific_csv_accepts (t : Table) : Bool :=
  !t.isEmpty && decide (10 ≤ t.rows.length) &&
    chengyu_cols.any (fun c => t.cols.contains c)

/-- The per-parse validation of `load_fallback_csv` (line 126): the parsed
frame must be non-empty and have at least 10 rows.  No column is checked. -/
def fallback_csv_accepts (t : Table) : Bool :=
  !t.isEmpty && decide (10 ≤ t.rows.length)

/-- Modelled from the spec, for comparison with the code's checks: a loaded
source is accepted only if it has at least 10 records and its normalized
schema contains the term field (canonically `Chengyu 成语`) and at least one
of the phonetic (`Pinyin`) or local-equivalent (`Equivalente en Venezolano`)
fields. -/
def spec_source_valid (t : Table) : Prop :=
  10 ≤ t.rows.length ∧
    "Chengyu 成语" ∈ (process_loaded_data t).cols ∧
    ("Pinyin" ∈ (process_loaded_data t).cols ∨
     "Equivalente en Venezolano" ∈ (process_loaded_data t).cols)

instance (t : Table) : Decidable (spec_source_valid t) := by
  unfold spec_source_valid; infer_instance

/-! ## Day lookup (`/dia`) -/

/-- The observable outcomes of `daily_chengyu` (lines 354-375). -/
inductive DayResponse where
  /-- The frame is empty: service-unavailable message. -/
  | unavailable
  /-- No or malformed argument: usage message quoting the bound. -/
  | usage (bound : Nat)
  /-- A record was found and rendered. -/
  | record (r : Row)
  /-- Out-of-range day: range-correction message quoting the bound. -/
  | outOfRange (bound : Nat)
  deriving DecidableEq, Repr

/-- Models `daily_chengyu` for a parsed integer argument `day`
(lines 354-375): guard on an empty frame, then `1 <= day <= len(df)`
selects `df.iloc[day-1]`, otherwise the range-correction message. -/
def daily_chengyu (t : Table) (day : Int) : DayResponse :=
  if t.isEmpty then .unavailable
  else if h : 1 ≤ day ∧ day ≤ (t.rows.length : Int) then
    .record (t.rows.get ⟨(day - 1).toNat, by omega⟩)
  else .outOfRange t.rows.length

/-! ## Level filter (`/hsk`) -/

/-- The closed level vocabulary (line 435). -/
def valid_levels : List String := ["HSK6", "HSK7", "HSK8", "HSK9"]

/-- Models Python `str.upper()` on the character sequence (the level tokens
live in the ASCII range, where `Char.toUpper` and Python agree). -/
def pyUpper (s : String) : String := ⟨s.data.map Char.toUpper⟩

/-- The observable outcomes of `hsk_filter` (lines 423-451). -/
inductive HskResponse where
  /-- The frame is empty: service-unavailable message. -/
  | unavailable
  /-- No argument: the levels-available usage message. -/
  | usage
  /-- The matching rows, from which one is sampled and rendered. -/
  | result (level : String) (found : List Row)
  /-- The level is valid but no row matches it. -/
  | noMatches (level : String)
  /-- The upper-cased token is not in the closed vocabulary. -/
  | invalidLevel
  /-- The level column is absent: the filter raises and the handler
  degrades to its generic error message. -/
  | error
  deriving DecidableEq, Repr

/-- Models `hsk_filter` (lines 423-451): the first argument is upper-cased,
checked against the closed vocabulary, and compared verbatim against the
stored `Nivel de Dificultad` cells.  No whitespace is stripped on either
side and the stored values are not normalized. -/
def hsk_filter (t : Table) (args : List String) : HskResponse :=
  if t.isEmpty then .unavailable
  else if args.isEmpty then .usage
  else
      let level := pyUpper (args.headD "")
      if level ∈ valid_levels then
        if "Nivel de Dificultad" ∈ t.cols then
          let i := t.cols.indexOf "Nivel de Dificultad"
          let filtered := t.rows.filter (fun r => (r.get? i).join = some level)
          if filtered.isEmpty then .noMatches level else .result level filtered
        else .error
      else .invalidLevel

/-! ## Category menu and selection -/

/-- Models `show_categories` (lines 377-396): the inline keyboard offers
`enumerate(self.categorias[:20])`, one button per (callback index, label). -/
def show_categories (cats : List String) : List (Nat × String) :=
  (cats.take 20).enum

/-- The observable outcomes of `category_handler` (lines 398-421). -/
inductive CategoryResponse where
  /-- Rows of the chosen category, from which one is sampled and rendered. -/
  | record (category : String) (found : List Row)
  /-- The chosen category exists but filters to no rows. -/
  | emptyCategory
  /-- The callback index is out of range of the category list. -/
  | invalidCategory
  /-- The literal `Categoria` column is absent: `self.df['Categoria']`
  raises and the handler degrades to its generic error message. -/
  | processingError
  deriving DecidableEq, Repr

/-- Models `category_handler` (lines 398-421): the callback index selects a
category from `self.categorias`, and rows are filtered through the literal
column name `Categoria` only. -/
def category_handler (t : Table) (cats : List String) (idx : Nat) : CategoryResponse :=
  if h : idx < cats.length then
    let category := cats.get ⟨idx, h⟩
    if "Categoria" ∈ t.cols then
      let i := t.cols.indexOf "Categoria"
      let filtered := t.rows.filter (fun r => (r.get? i).join = some category)
      if filtered.isEmpty then .emptyCategory else .record category filtered
    else .processingError
  else .invalidCategory

/-! ## Quiz engine

The quiz works on DataFrame rows carrying their index label (`row.name`).
Randomness (the `sample` and `shuffle` calls) is modelled by passing the
drawn rows and the shuffled arrangement as parameters constrained by the
hypotheses of the theorems: `sample` without replacement yields rows at
pairwise-distinct labels distinct from the correct row, and `shuffle`
yields a permutation of the assembled four-element list. -/

/-- A DataFrame row as the quiz consumes it: its index label (`row.name`)
plus the two fields the quiz reads (`Chengyu 成语` for locating the correct
option, `Equivalente en Venezolano` for the button label). -/
structure QRow where
  label : Nat
  term : Cell
  venezolano : Cell
  deriving DecidableEq, Repr

/-- Models `get_column_value` specialised to the equivalent column:
the placeholder `N/A` substitutes for a missing value (lines 253-258). -/
def get_venezolano (r : QRow) : String := r.venezolano.getD "N/A"

/-- The button-label truncation of line 481: at most 45 characters plus an
ellipsis marker. -/
def display_text (v : String) : String :=
  if 45 < v.length then v.take 45 ++ "..." else v

/-- Python `==` on two cell values as the quiz compares them (line 473):
two present strings compare by content; a NaN compares unequal to
everything, itself included. -/
def pyCellEq (x y : Cell) : Bool :=
  match x, y with
  | some a, some b => a = b
  | _, _ => false

/-- The data carried on one answer button: `ans_{i}_{correct_index}_{correct.name}`
(line 484).  `correct_position` is an `Option` because the locating loop of
lines 471-475 starts from `None`. -/
structure QuizToken where
  position : Nat
  correct_position : Option Nat
  correct_label : Nat
  deriving DecidableEq, Repr

/-- A built question: the shuffled options, the located index of the correct
option, and one (button label, token) pair per option (lines 466-489). -/
structure QuizQuestion where
  options : List QRow
  correct_index : Option Nat
  keyboard : List (String × QuizToken)
  deriving DecidableEq, Repr

/-- Models the question-building body of `quiz` (lines 460-489) given the
drawn correct row and the shuffled option list: locate the correct option by
comparing the term field (lines 471-475), then build one button per shuffled
position carrying `(position, correct_index, correct.name)`. -/
def build_question (correct : QRow) (shuffled : List QRow) : QuizQuestion :=
  let ci := shuffled.findIdx? (fun o => pyCellEq o.term correct.term)
  { options := shuffled
    correct_index := ci
    keyboard := (List.range shuffled.length).map
      (fun i => (display_text (get_venezolano ((shuffled.get? i).getD correct)),
                 ⟨i, ci, correct.label⟩)) }

/-- The observable outcomes of `quiz` (lines 453-498). -/
inductive QuizResponse where
  /-- Fewer than 4 rows (or an empty frame): quiz-unavailable message. -/
  | unavailable
  /-- A question was posed. -/
  | question (q : QuizQuestion)
  deriving DecidableEq, Repr

/-- Models `quiz` (lines 453-498): the guard of line 455 signals
unavailability below 4 rows; otherwise the question is built from the drawn
correct row and the shuffled options. -/
def quiz (df : List QRow) (correct : QRow) (shuffled : List QRow) : QuizResponse :=
  if df.isEmpty || df.length < 4 then .unavailable
  else .question (build_question correct shuffled)

/-- The observable outcomes of `answer_handler` (lines 500-522). -/
inductive AnswerResponse where
  /-- The verdict plus the re-fetched correct record that is rendered. -/
  | result (is_correct : Bool) (correct_record : QRow)
  /-- Token decoding or `df.loc` failed: generic error message. -/
  | error
  deriving DecidableEq, Repr

/-- Models `answer_handler` (lines 500-522): decode the token of the clicked
button (the selected position is the position the token itself carries),
compare it with the embedded correct position, and re-fetch the correct
record by its index label with `self.df.loc` (which raises when the label is
absent, and `int` raises on a `None` correct position). -/
def answer_handler (df : List QRow) (tok : QuizToken) : AnswerResponse :=
  match tok.correct_position with
  | none => .error
  | some ci =>
    match df.find? (fun r => r.label = tok.correct_label) with
    | none => .error
    | some row => .result (tok.position == ci) row

/-! ## Message chunking -/

/-- Structural worker for `chunk`: the fuel only bounds the recursion depth
and is irrelevant as soon as it dominates the text length. -/
def chunkFuel (limit : Nat) : Nat → List Char → List (List Char)
  | _, [] => []
  | 0, _ :: _ => []
  | fuel + 1, c :: cs =>
      (c :: cs.take (limit - 1)) :: chunkFuel limit fuel (cs.drop (limit - 1))

/-- Modelled from the spec: the repository single source file sends rendered
text directly and contains no chunking routine, so `chunk` follows the
words of the Message Renderer contract — split text exceeding a fixed size
limit into ordered, contiguous, limit-respecting segments preserving the
original content ordering.  Text is its character sequence. -/
def chunk (limit : Nat) (text : List Char) : List (List Char) :=
  chunkFuel limit text.length text

/-! ## Helper lemmas -/

/-- Membership in a renamed column list: the image of `c` is `new` when
`c = old` and `c` itself otherwise. -/
lemma mem_renameCol_iff (x old new : String) (cols : List String) :
    x ∈ renameCol old new cols ↔
      (old ∈ cols ∧ x = new) ∨ (x ∈ cols ∧ x ≠ old) := by
  unfold renameCol
  rw [List.mem_map]
  constructor
  · rintro ⟨c, hc, heq⟩
    by_cases hco : c = old
    · subst hco; simp at heq; exact Or.inl ⟨hc, heq.symm⟩
    · simp [hco] at heq; subst heq; exact Or.inr ⟨hc, hco⟩
  · rintro (⟨ho, hx⟩ | ⟨hx, hne⟩)
    · exact ⟨old, ho, by simp [hx]⟩
    · exact ⟨x, hx, by simp [hne]⟩

/-- A pair is settled in a column list when its alias is gone or its
canonical name is present; a settled pair is never renamed again. -/
def Settled (p : String × String) (cols : List String) : Prop :=
  p.1 ∉ cols ∨ p.2 ∈ cols

/-- Applying a pair settles that very pair, provided its alias and
canonical spelling differ. -/
lemma settled_applyAlias_self (cols : List String) (p : String × String)
    (hne : p.1 ≠ p.2) : Settled p (applyAlias cols p) := by
  unfold applyAlias
  split
  · left
    intro hmem
    rcases (mem_renameCol_iff p.1 p.1 p.2 cols).mp hmem with ⟨_, h⟩ | ⟨_, h⟩
    · exact hne h
    · exact h rfl
  · unfold Settled; tauto

/-- Applying a different pair `q` preserves settledness of `p` as long as
the canonical name of `q` is not the alias of `p` and the alias of `q` is
not the canonical name of `p`. -/
lemma settled_applyAlias_other (cols : List String) (p q : String × String)
    (h : Settled p cols) (h1 : q.2 ≠ p.1) (h2 : q.1 ≠ p.2) :
    Settled p (applyAlias cols q) := by
  unfold applyAlias
  split
  · rcases h with hnm | hm
    · left
      intro hmem
      rcases (mem_renameCol_iff p.1 q.1 q.2 cols).mp hmem with ⟨_, hx⟩ | ⟨hx, _⟩
      · exact h1 hx.symm
      · exact hnm hx
    · right
      exact (mem_renameCol_iff p.2 q.1 q.2 cols).mpr
        (Or.inr ⟨hm, fun he => h2 he.symm⟩)
  · exact h

/-- Settledness of `p` survives a whole fold of pairs that are all
alias/canonical-disjoint from `p`. -/
lemma settled_foldl (l : List (String × String)) (cols : List String)
    (p : String × String) (h : Settled p cols)
    (hl : ∀ q ∈ l, q.2 ≠ p.1 ∧ q.1 ≠ p.2) :
    Settled p (l.foldl applyAlias cols) := by
  induction l generalizing cols with
  | nil => exact h
  | cons q rest ih =>
    rw [List.foldl_cons]
    exact ih (applyAlias cols q)
      (settled_applyAlias_other cols p q h (hl q (List.mem_cons_self q rest)).1
        (hl q (List.mem_cons_self q rest)).2)
      (fun r hr => hl r (List.mem_cons_of_mem q hr))

/-- In the concrete alias table, no alias spelling coincides with any
canonical name. -/
lemma column_mapping_alias_ne_canonical :
    ∀ p ∈ column_mapping, ∀ q ∈ column_mapping, q.1 ≠ p.2 := by decide

/-- After one full pass of the alias fold, every pair of the processed list
is settled, provided no alias in the list coincides with a canonical name. -/
lemma settled_after_foldl (l : List (String × String)) (cols : List String)
    (hdist : ∀ p ∈ l, ∀ q ∈ l, q.1 ≠ p.2) :
    ∀ p ∈ l, Settled p (l.foldl applyAlias cols) := by
  induction l generalizing cols with
  | nil => intro p hp; cases hp
  | cons q rest ih =>
    intro p hp
    rw [List.foldl_cons]
    rcases List.mem_cons.mp hp with rfl | hp2
    · exact settled_foldl rest (applyAlias cols p)
        p (settled_applyAlias_self cols p (hdist p hp p hp))
        (fun r hr =>
          ⟨fun he => hdist r (List.mem_cons_of_mem p hr) p hp he.symm,
           fun he => hdist p hp r (List.mem_cons_of_mem p hr) he⟩)
    · exact ih (applyAlias cols q)
        (fun a ha b hb =>
          hdist a (List.mem_cons_of_mem q ha) b (List.mem_cons_of_mem q hb))
        p hp2

/-- A fold over settled pairs changes nothing. -/
lemma foldl_eq_self_of_settled (l : List (String × String)) (cols : List String)
    (h : ∀ p ∈ l, Settled p cols) : l.foldl applyAlias cols = cols := by
  induction l with
  | nil => rfl
  | cons q rest ih =>
    have hq : applyAlias cols q = cols := by
      unfold applyAlias
      rw [if_neg]
      have := h q (List.mem_cons_self q rest)
      unfold Settled at this
      tauto
    rw [List.foldl_cons, hq]
    exact ih (fun p hp => h p (List.mem_cons_of_mem q hp))

/-- The alias loop is idempotent on the column names. -/
lemma normalizeCols_idem (cols : List String) :
    normalizeCols (normalizeCols cols) = normalizeCols cols :=
  foldl_eq_self_of_settled column_mapping (normalizeCols cols)
    (settled_after_foldl column_mapping cols column_mapping_alias_ne_canonical)

/-- Dropping fully-empty rows is idempotent. -/
lemma dropEmptyRows_idem (rows : List Row) :
    dropEmptyRows (dropEmptyRows rows) = dropEmptyRows rows := by
  unfold dropEmptyRows
  induction rows with
  | nil => rfl
  | cons r rest ih =>
    by_cases h : rowEmpty r <;> simp [List.filter_cons, h, ih]

/-- A canonical name already present survives the whole alias fold: folds
never remove a name that is not an alias of any processed pair. -/
lemma mem_foldl_of_ne_aliases (l : List (String × String)) (cols : List String)
    (x : String) (hx : x ∈ cols) (hne : ∀ q ∈ l, q.1 ≠ x) :
    x ∈ l.foldl applyAlias cols := by
  induction l generalizing cols with
  | nil => exact hx
  | cons q rest ih =>
    rw [List.foldl_cons]
    refine ih (applyAlias cols q) ?_ (fun r hr => hne r (List.mem_cons_of_mem q hr))
    unfold applyAlias
    split
    · exact (mem_renameCol_iff x q.1 q.2 cols).mpr
        (Or.inr ⟨hx, fun he => hne q (List.mem_cons_self q rest) (he ▸ rfl)⟩)
    · exact hx

/-- Locating a satisfying element: `findIdx?` starting at `i` answers some
index below `i` plus the length whenever a satisfying element exists. -/
lemma findIdx?_some_of_exists {α : Type} (p : α → Bool) :
    ∀ (l : List α) (i : Nat), (∃ x ∈ l, p x = true) →
      ∃ j, List.findIdx? p l i = some j ∧ j < i + l.length := by
  intro l
  induction l with
  | nil => rintro i ⟨x, hx, _⟩; cases hx
  | cons a rest ih =>
    rintro i ⟨x, hx, hpx⟩
    rw [List.findIdx?_cons]
    by_cases hpa : p a = true
    · exact ⟨i, by rw [if_pos hpa], by simp only [List.length_cons]; omega⟩
    · rcases List.mem_cons.mp hx with rfl | hx2
      · exact absurd hpx hpa
      · rcases ih (i + 1) ⟨x, hx2, hpx⟩ with ⟨j, hj, hlt⟩
        exact ⟨j, by rw [if_neg hpa]; exact hj,
               by simp only [List.length_cons]; omega⟩

/-- With pairwise-distinct labels, `find?` on a label re-fetches exactly the
row carrying it. -/
lemma find?_label_eq (df : List QRow) (x : QRow)
    (hmem : x ∈ df) (hnd : (df.map QRow.label).Nodup) :
    df.find? (fun r => r.label = x.label) = some x := by
  induction df with
  | nil => cases hmem
  | cons a rest ih =>
    rcases List.nodup_cons.mp hnd with ⟨hna, hrest⟩
    by_cases hl : a.label = x.label
    · rw [List.find?_cons_of_pos rest (by simp [hl])]
      rcases List.mem_cons.mp hmem with rfl | hx2
      · rfl
      · exact absurd (hl ▸ List.mem_map_of_mem QRow.label hx2) hna
    · rw [List.find?_cons_of_neg rest (by simp [hl])]
      rcases List.mem_cons.mp hmem with rfl | hx2
      · exact absurd rfl hl
      · exact ih hx2 hrest

/-! ## Claim theorems -/

/-- C7: schema normalization is idempotent — running `process_loaded_data` a
second time on an already-normalized table yields the same table. -/
theorem C7_normalization_idempotent (t : Table) :
    process_loaded_data (process_loaded_data t) = process_loaded_data t := by
  unfold process_loaded_data
  simp only [Table.mk.injEq]
  exact ⟨normalizeCols_idem t.cols, dropEmptyRows_idem t.rows⟩

/-- C8: during normalization each alias column is renamed to its canonical
name only if the canonical name is not already present (first-writer-wins),
so a table already holding the canonical column is left untouched by that
alias step and the canonical column survives the whole alias loop. -/
theorem C8_first_writer_wins (cols : List String) (p : String × String)
    (hp : p ∈ column_mapping) (hc : p.2 ∈ cols) :
    applyAlias cols p = cols ∧ p.2 ∈ normalizeCols cols := by
  constructor
  · unfold applyAlias
    rw [if_neg]
    tauto
  · exact mem_foldl_of_ne_aliases column_mapping cols p.2 hc
      (fun q hq => column_mapping_alias_ne_canonical p hp q hq)

/-- C8 witness: a table carrying both the canonical term column and its
lower-case alias keeps the canonical column and is not rewritten by the
alias step of that pair. -/
theorem C8_first_writer_wins_witness :
    applyAlias ["Chengyu 成语", "chengyu"] ("chengyu", "Chengyu 成语") =
      ["Chengyu 成语", "chengyu"] ∧
    "Chengyu 成语" ∈ normalizeCols ["Chengyu 成语", "chengyu"] :=
  C8_first_writer_wins ["Chengyu 成语", "chengyu"] ("chengyu", "Chengyu 成语")
    (by decide) (by decide)

/-- C4: for a loaded (non-empty) table, day 1 yields the first loaded row,
day `row_count` the last, and days 0 and `row_count + 1` both yield the
out-of-range response carrying the valid bound. -/
theorem C4_by_day_bounds (t : Table) (first last : Row)
    (hne : t.isEmpty = false)
    (hf : t.rows.get? 0 = some first)
    (hl : t.rows.get? (t.rows.length - 1) = some last) :
    daily_chengyu t 1 = .record first ∧
    daily_chengyu t (t.rows.length : Int) = .record last ∧
    daily_chengyu t 0 = .outOfRange t.rows.length ∧
    daily_chengyu t ((t.rows.length : Int) + 1) = .outOfRange t.rows.length := by
  obtain ⟨h0, hfirst⟩ := List.get?_eq_some.mp hf
  have key : ∀ (k : Nat) (hk : k < t.rows.length) (r : Row),
      t.rows.get? k = some r → t.rows.get ⟨k, hk⟩ = r := by
    intro k hk r h
    obtain ⟨h2, he⟩ := List.get?_eq_some.mp h
    exact he
  refine ⟨?_, ?_, ?_, ?_⟩
  · unfold daily_chengyu
    rw [if_neg (by simp [hne]), dif_pos (by constructor <;> omega)]
    rw [DayResponse.record.injEq]
    apply key
    rw [show ((1 : Int) - 1).toNat = 0 by omega]
    exact hf
  · unfold daily_chengyu
    rw [if_neg (by simp [hne]), dif_pos (by constructor <;> omega)]
    rw [DayResponse.record.injEq]
    apply key
    rw [show ((t.rows.length : Int) - 1).toNat = t.rows.length - 1 by omega]
    exact hl
  · unfold daily_chengyu
    rw [if_neg (by simp [hne]), dif_neg (by omega)]
  · unfold daily_chengyu
    rw [if_neg (by simp [hne]), dif_neg (by push_neg; intro; omega)]

/-- C4 witness: a concrete two-row table exercises all four bounds. -/
theorem C4_by_day_bounds_witness :
    daily_chengyu ⟨["c"], [[some "a"], [some "b"]]⟩ 1 = .record [some "a"] ∧
    daily_chengyu ⟨["c"], [[some "a"], [some "b"]]⟩ 2 = .record [some "b"] ∧
    daily_chengyu ⟨["c"], [[some "a"], [some "b"]]⟩ 0 = .outOfRange 2 ∧
    daily_chengyu ⟨["c"], [[some "a"], [some "b"]]⟩ 3 = .outOfRange 2 :=
  C4_by_day_bounds ⟨["c"], [[some "a"], [some "b"]]⟩ [some "a"] [some "b"]
    rfl rfl rfl

/-- C9: category selection reads rows only through the literal column name
`Categoria`; when the normalized table lacks that exact column (for example
because the category list came from a `Category` or `Tema` column the alias
loop does not rename), every in-range menu choice produces the handler's
error response instead of a record. -/
theorem C9_category_literal_column (t : Table) (idx : Nat)
    (hc : "Categoria" ∉ (process_loaded_data t).cols)
    (hidx : idx < (extract_categorias (process_loaded_data t)).length) :
    category_handler (process_loaded_data t)
      (extract_categorias (process_loaded_data t)) idx = .processingError := by
  unfold category_handler
  rw [dif_pos hidx, if_neg hc]

/-- C9 witness: a raw table arriving with the exact spelling `Category` is
not renamed, its category list is extracted and non-empty, and selecting its
first category errors out. -/
theorem C9_category_literal_column_witness :
    category_handler (process_loaded_data ⟨["Category"], [[some "X"]]⟩)
      (extract_categorias (process_loaded_data ⟨["Category"], [[some "X"]]⟩)) 0 =
      .processingError :=
  C9_category_literal_column ⟨["Category"], [[some "X"]]⟩ 0 (by decide) (by decide)

/-- C10: the category menu offers at most the first 20 categories; with a
duplicate-free category list (as `unique()` produces), a category sitting at
position 21 or beyond is never offered under any callback index. -/
theorem C10_categories_menu (cats : List String) (hnd : cats.Nodup) :
    (show_categories cats).length ≤ 20 ∧
    ∀ (i : Nat) (hi : i < cats.length), 20 ≤ i →
      ∀ j, (j, cats.get ⟨i, hi⟩) ∉ show_categories cats := by
  constructor
  · unfold show_categories
    rw [List.enum_length, List.length_take]
    exact min_le_left _ _
  · intro i hi h20 j hmem
    have hv : cats.get ⟨i, hi⟩ ∈ cats.take 20 := by
      simpa using List.snd_mem_of_mem_enum hmem
    obtain ⟨⟨k, hk⟩, hkeq⟩ := List.mem_iff_get.mp hv
    have hk20 : k < 20 :=
      lt_of_lt_of_le hk (by rw [List.length_take]; exact min_le_left _ _)
    have hkc : k < cats.length :=
      lt_of_lt_of_le hk (by rw [List.length_take]; exact min_le_right _ _)
    have hsame : cats.get ⟨k, hkc⟩ = cats.get ⟨i, hi⟩ := by
      rw [← hkeq]
      exact List.get_take cats hkc hk20
    have hfin := hnd.get_inj_iff.mp hsame
    have : k = i := congrArg Fin.val hfin
    omega

/-- C10 witness: with 21 distinct categories, the menu holds at most 20
buttons and the 21st category is absent, in particular under index 20. -/
theorem C10_categories_menu_witness :
    (show_categories ["a", "b", "c", "d", "e", "f", "g", "h", "i", "j", "k",
      "l", "m", "n", "o", "p", "q", "r", "s", "t", "u"]).length ≤ 20 ∧
    (20, "u") ∉ show_categories ["a", "b", "c", "d", "e", "f", "g", "h", "i",
      "j", "k", "l", "m", "n", "o", "p", "q", "r", "s", "t", "u"] :=
  ⟨(C10_categories_menu _ (by decide)).1,
   (C10_categories_menu ["a", "b", "c", "d", "e", "f", "g", "h", "i", "j",
      "k", "l", "m", "n", "o", "p", "q", "r", "s", "t", "u"] (by decide)).2
     20 (by decide) (by decide) 20⟩

/-- C1 (amended): the specific-CSV loader accepts a parsed candidate only if
it is non-empty, has at least 10 rows and carries one of the four raw
term-column spellings, while the fallback-CSV loader accepts any non-empty
parse with at least 10 rows; neither loader checks for the phonetic or
local-equivalent columns. -/
theorem C1_acceptance_checks (t : Table) :
    (specific_csv_accepts t = true →
      10 ≤ t.rows.length ∧ ∃ c ∈ chengyu_cols, c ∈ t.cols) ∧
    (fallback_csv_accepts t = true → 10 ≤ t.rows.length) := by
  constructor
  · intro h
    unfold specific_csv_accepts at h
    simp only [Bool.and_eq_true, decide_eq_true_eq, List.any_eq_true] at h
    obtain ⟨⟨_, hlen⟩, c, hc, hmem⟩ := h
    exact ⟨hlen, c, hc, by simpa using hmem⟩
  · intro h
    unfold fallback_csv_accepts at h
    simp only [Bool.and_eq_true, decide_eq_true_eq] at h
    exact h.2

/-- C1 witness: a ten-row table carrying the canonical term column is
accepted by both loaders and satisfies the proved acceptance conditions. -/
theorem C1_acceptance_checks_witness :
    (10 ≤ (List.replicate 10 ([some "x"] : Row)).length ∧
      ∃ c ∈ chengyu_cols, c ∈ ["Chengyu 成语"]) ∧
    10 ≤ (List.replicate 10 ([some "x"] : Row)).length :=
  ⟨(C1_acceptance_checks ⟨["Chengyu 成语"], List.replicate 10 [some "x"]⟩).1
      (by decide),
   (C1_acceptance_checks ⟨["Chengyu 成语"], List.replicate 10 [some "x"]⟩).2
      (by decide)⟩

/-- C1 counterexample: a ten-row table whose only column is `foo` is accepted
by the fallback-CSV check even though its normalized schema has neither the
term column nor the phonetic or local-equivalent columns; likewise the
specific-CSV check accepts a table that has the term column but neither the
phonetic nor the local-equivalent column.  This refutes the claimed
invariant that a loaded source is accepted only if the normalized schema
contains the term field and one of the other two. -/
theorem C1_acceptance_counterexample :
    fallback_csv_accepts ⟨["foo"], List.replicate 10 [some "x"]⟩ = true ∧
    ¬ spec_source_valid ⟨["foo"], List.replicate 10 [some "x"]⟩ ∧
    specific_csv_accepts ⟨["Chengyu 成语"], List.replicate 10 [some "x"]⟩ = true ∧
    ¬ spec_source_valid ⟨["Chengyu 成语"], List.replicate 10 [some "x"]⟩ := by
  refine ⟨by decide, by decide, by decide, by decide⟩

/-- C5 (amended): level matching upper-cases the incoming token only — no
whitespace stripping on the token and no normalization at all of the stored
`Nivel de Dificultad` values, which are compared verbatim with the
upper-cased token.  Hence two tokens equal up to case behave identically,
and the selected rows are exactly those whose stored cell equals the
upper-cased token verbatim. -/
theorem C5_level_filter_amended (t : Table) (a : String)
    (hne : t.isEmpty = false)
    (hv : pyUpper a ∈ valid_levels)
    (hcol : "Nivel de Dificultad" ∈ t.cols) :
    (∀ b, pyUpper b = pyUpper a → hsk_filter t [b] = hsk_filter t [a]) ∧
    (∀ lvl found, hsk_filter t [a] = .result lvl found →
      lvl = pyUpper a ∧
      ∀ r, r ∈ found ↔ r ∈ t.rows ∧
        (r.get? (t.cols.indexOf "Nivel de Dificultad")).join = some (pyUpper a)) := by
  constructor
  · intro b hb
    unfold hsk_filter
    simp only [List.headD_cons, List.isEmpty_cons, hb]
  · intro lvl found h
    unfold hsk_filter at h
    simp only [List.headD_cons, List.isEmpty_cons] at h
    rw [if_neg (by simp [hne]), if_neg (by simp), if_pos hv, if_pos hcol] at h
    split at h
    · cases h
    · rw [HskResponse.result.injEq] at h
      obtain ⟨h1, h2⟩ := h
      refine ⟨h1.symm, fun r => ?_⟩
      rw [← h2]
      simp [List.mem_filter]

/-- C5 witness: on a table storing `HSK6`, the tokens `HSK6` and `hsk6`
behave identically. -/
theorem C5_level_filter_amended_witness :
    hsk_filter ⟨["Nivel de Dificultad"], [[some "HSK6"]]⟩ ["HSK6"] =
      hsk_filter ⟨["Nivel de Dificultad"], [[some "HSK6"]]⟩ ["hsk6"] :=
  (C5_level_filter_amended ⟨["Nivel de Dificultad"], [[some "HSK6"]]⟩ "hsk6"
      rfl (by decide) (by decide)).1 "HSK6" (by decide)

/-- C5 counterexample: against a table storing level `HSK6`, the token
`HSK 6` is rejected as an invalid level instead of matching, while `hsk6`
does match — so level filtering is not whitespace-insensitive and the claim
fails as stated. -/
theorem C5_level_filter_counterexample :
    hsk_filter ⟨["Nivel de Dificultad"], [[some "HSK6"]]⟩ ["HSK 6"] =
      .invalidLevel ∧
    hsk_filter ⟨["Nivel de Dificultad"], [[some "HSK6"]]⟩ ["hsk6"] =
      .result "HSK6" [[some "HSK6"]] := by
  refine ⟨by decide, by decide⟩

/-- Chunk concatenation: with enough fuel the produced segments flatten back
to the original text. -/
lemma chunkFuel_flatten (limit : Nat) :
    ∀ (fuel : Nat) (text : List Char), text.length ≤ fuel →
      (chunkFuel limit fuel text).flatten = text := by
  intro fuel
  induction fuel with
  | zero =>
    intro text h
    have : text = [] := List.length_eq_zero.mp (Nat.le_zero.mp h)
    subst this
    rfl
  | succ n ih =>
    intro text h
    match text with
    | [] => rfl
    | c :: cs =>
      show ((c :: cs.take (limit - 1)) ::
        chunkFuel limit n (cs.drop (limit - 1))).flatten = c :: cs
      rw [List.flatten_cons,
        ih (cs.drop (limit - 1))
          (by rw [List.length_drop]; simp only [List.length_cons] at h; omega)]
      rw [List.cons_append, List.take_append_drop]

/-- Chunk size bound: with a positive limit every produced segment respects
the limit. -/
lemma chunkFuel_le (limit : Nat) (hpos : 0 < limit) :
    ∀ (fuel : Nat) (text : List Char),
      ∀ seg ∈ chunkFuel limit fuel text, seg.length ≤ limit := by
  intro fuel
  induction fuel with
  | zero =>
    intro text seg hseg
    match text with
    | [] => cases hseg
    | _ :: _ => cases hseg
  | succ n ih =>
    intro text seg hseg
    match text with
    | [] => cases hseg
    | c :: cs =>
      rcases List.mem_cons.mp hseg with rfl | hseg2
      · simp only [List.length_cons, List.length_take]
        have := min_le_left (limit - 1) cs.length
        omega
      · exact ih (cs.drop (limit - 1)) seg hseg2

/-- C6: for every text and positive limit, chunking yields ordered
contiguous segments none of which exceeds the limit, and concatenating them
in order reproduces the original text exactly. -/
theorem C6_chunk_lossless (limit : Nat) (text : List Char) (hpos : 0 < limit) :
    (chunk limit text).flatten = text ∧
    ∀ seg ∈ chunk limit text, seg.length ≤ limit :=
  ⟨chunkFuel_flatten limit text.length text le_rfl,
   fun seg hseg => chunkFuel_le limit hpos text.length text seg hseg⟩

/-- C6 witness: chunking a five-character text at limit 3 restores the text
on flattening, and its first segment respects the limit. -/
theorem C6_chunk_lossless_witness :
    (chunk 3 ['h', 'e', 'l', 'l', 'o']).flatten = ['h', 'e', 'l', 'l', 'o'] ∧
    ['h', 'e', 'l'].length ≤ 3 :=
  ⟨(C6_chunk_lossless 3 ['h', 'e', 'l', 'l', 'o'] (by decide)).1,
   (C6_chunk_lossless 3 ['h', 'e', 'l', 'l', 'o'] (by decide)).2
     ['h', 'e', 'l'] (by decide)⟩

/-- C2: with at least 4 rows, the quiz builds exactly 4 options, pairwise
distinct by row identity (the correct row and 3 distractors drawn without
replacement from the other rows, then shuffled), every produced token
carries the same located correct position and the correct row identifier,
and exactly one of the 4 option positions equals that correct position;
with fewer than 4 rows the quiz signals unavailability instead. -/
theorem C2_quiz_four_options (df : List QRow) (correct : QRow)
    (wrongs : List QRow) (shuffled : List QRow) (s : String)
    (hlen : 4 ≤ df.length)
    (hterm : correct.term = some s)
    (hw3 : wrongs.length = 3)
    (hnd : ((correct :: wrongs).map QRow.label).Nodup)
    (hperm : shuffled.Perm (correct :: wrongs)) :
    (∃ q, quiz df correct shuffled = QuizResponse.question q ∧
      q.options.length = 4 ∧
      (q.options.map QRow.label).Nodup ∧
      (∃ ci, q.correct_index = some ci ∧ ci < 4 ∧
        (∀ pr ∈ q.keyboard,
          pr.2.correct_position = some ci ∧ pr.2.correct_label = correct.label) ∧
        (q.keyboard.map (fun pr => pr.2.position)).filter (fun p => p = ci) = [ci]) ∧
      q.keyboard.map (fun pr => pr.2.position) = List.range 4) ∧
    (∀ dsmall : List QRow, dsmall.length < 4 →
      ∀ c2 sh2, quiz dsmall c2 sh2 = QuizResponse.unavailable) := by
  have hlen4 : shuffled.length = 4 := by
    rw [hperm.length_eq]
    simp [hw3]
  have hkeypos : (build_question correct shuffled).keyboard.map
      (fun pr => pr.2.position) = List.range 4 := by
    simp only [build_question, List.map_map]
    rw [hlen4]
    exact List.map_id' _
  constructor
  · refine ⟨build_question correct shuffled, ?_, ?_, ?_, ?_, ?_⟩
    · unfold quiz
      rw [if_neg]
      simp only [Bool.or_eq_true, decide_eq_true_eq, List.isEmpty_iff]
      push_neg
      constructor
      · intro h
        rw [h] at hlen
        simp at hlen
      · omega
    · simpa [build_question] using hlen4
    · have hmapperm := hperm.map QRow.label
      simpa [build_question] using hmapperm.symm.nodup hnd
    · obtain ⟨ci, hci, hlt⟩ :=
        findIdx?_some_of_exists (fun o => pyCellEq o.term correct.term) shuffled 0
          ⟨correct, hperm.symm.subset (List.mem_cons_self correct wrongs),
           by simp [pyCellEq, hterm]⟩
      rw [Nat.zero_add, hlen4] at hlt
      refine ⟨ci, ?_, hlt, ?_, ?_⟩
      · simpa [build_question] using hci
      · intro pr hpr
        simp only [build_question, List.mem_map, List.mem_range] at hpr
        obtain ⟨i, _, rfl⟩ := hpr
        simp [hci]
      · rw [hkeypos]
        interval_cases ci <;> decide
    · exact hkeypos
  · intro dsmall hsmall c2 sh2
    unfold quiz
    rw [if_pos]
    simp only [Bool.or_eq_true, decide_eq_true_eq]
    exact Or.inr hsmall

/-- C2 witness: a concrete four-row dataset with a concrete shuffle. -/
theorem C2_quiz_four_options_witness :
    (∃ q, quiz
        [⟨0, some "A", some "a"⟩, ⟨1, some "B", some "b"⟩,
         ⟨2, some "C", some "c"⟩, ⟨3, some "D", some "d"⟩]
        ⟨0, some "A", some "a"⟩
        [⟨1, some "B", some "b"⟩, ⟨0, some "A", some "a"⟩,
         ⟨2, some "C", some "c"⟩, ⟨3, some "D", some "d"⟩] =
        QuizResponse.question q ∧
      q.options.length = 4 ∧
      (q.options.map QRow.label).Nodup ∧
      (∃ ci, q.correct_index = some ci ∧ ci < 4 ∧
        (∀ pr ∈ q.keyboard,
          pr.2.correct_position = some ci ∧
          pr.2.correct_label = (⟨0, some "A", some "a"⟩ : QRow).label) ∧
        (q.keyboard.map (fun pr => pr.2.position)).filter (fun p => p = ci) = [ci]) ∧
      q.keyboard.map (fun pr => pr.2.position) = List.range 4) ∧
    (∀ dsmall : List QRow, dsmall.length < 4 →
      ∀ c2 sh2, quiz dsmall c2 sh2 = QuizResponse.unavailable) :=
  C2_quiz_four_options
    [⟨0, some "A", some "a"⟩, ⟨1, some "B", some "b"⟩,
     ⟨2, some "C", some "c"⟩, ⟨3, some "D", some "d"⟩]
    ⟨0, some "A", some "a"⟩
    [⟨1, some "B", some "b"⟩, ⟨2, some "C", some "c"⟩, ⟨3, some "D", some "d"⟩]
    [⟨1, some "B", some "b"⟩, ⟨0, some "A", some "a"⟩,
     ⟨2, some "C", some "c"⟩, ⟨3, some "D", some "d"⟩]
    "A" (by decide) rfl rfl (by decide) (by decide)

/-- C3: answer verification reports correct exactly when the selected
position (the one the clicked token carries) equals the token's embedded
correct position, and the record it returns is re-fetched by the token's
correct row identifier, hence is always the originally chosen correct
record whichever option was selected. -/
theorem C3_answer_verification (df : List QRow) (correct : QRow)
    (selected ci : Nat)
    (hmem : correct ∈ df)
    (hnd : (df.map QRow.label).Nodup) :
    answer_handler df ⟨selected, some ci, correct.label⟩ =
      AnswerResponse.result (selected == ci) correct ∧
    ((selected == ci) = true ↔ selected = ci) := by
  constructor
  · unfold answer_handler
    simp only []
    rw [find?_label_eq df correct hmem hnd]
  · exact beq_iff_eq

/-- C3 witness: on a concrete two-row dataset, selecting position 1 against
an embedded correct position 0 reports incorrect yet still returns the
correct row re-fetched by its identifier. -/
theorem C3_answer_verification_witness :
    answer_handler
      [⟨0, some "A", some "a"⟩, ⟨1, some "B", some "b"⟩]
      ⟨1, some 0, (⟨0, some "A", some "a"⟩ : QRow).label⟩ =
      AnswerResponse.result (1 == 0) ⟨0, some "A", some "a"⟩ ∧
    ((1 == 0) = true ↔ 1 = 0) :=
  C3_answer_verification [⟨0, some "A", some "a"⟩, ⟨1, some "B", some "b"⟩]
    ⟨0, some "A", some "a"⟩ 1 0 (by decide) (by decide)

end ChengyuBot
